import Mathlib

/-!
Verification development for the land-mapping web application's core:
the parcel classification and filtering pipeline, the multi-selection
state machine, and the saved-project persistence layer.

The definitions below are shallow embeddings of the TypeScript source:

* division keyword classification (`lib/geo/electoral-divisions.ts`),
* parcel preprocessing and the multi-criterion filter stage
  (the `MapView` component's memoized pipeline),
* the selection state machine (the `MapView` click/remove handlers and
  the `MultiParcelPanel` drag-and-drop reorder),
* the `useProjects` / `useSavedSelections` persistence hooks.

JavaScript string builtins (`toUpperCase`, `trim`, `includes`) are
embedded as executable functions over `String.data` character lists.
External geometry routines from the turf library
(`booleanPointInPolygon`, `centroid`) are opaque collaborators of the
code under verification; they are modelled as function-valued inputs:
a polygon's containment test is a function from points to a result
that is inside, outside, or a thrown geometry error.  Numeric property
values are JavaScript numbers that may be absent; they are modelled by
`JsNumber` (absent, NaN, or a finite rational).
-/

namespace LandMapping

/-- Embedding of the JavaScript builtin `String.prototype.toUpperCase`
(the community names and keywords involved are ASCII). -/
def jsToUpperCase (s : String) : String := ⟨s.data.map Char.toUpper⟩

/-- Embedding of the JavaScript builtin `String.prototype.trim`:
strip leading and trailing whitespace. -/
def jsTrim (s : String) : String :=
  ⟨((s.data.dropWhile Char.isWhitespace).reverse.dropWhile Char.isWhitespace).reverse⟩

/-- Does the second list occur as a prefix of the first? -/
def listStartsWith : List Char → List Char → Bool
  | _, [] => true
  | [], _ :: _ => false
  | a :: as, b :: bs => a == b && listStartsWith as bs

/-- Helper for `jsIncludes`: does `needle` occur contiguously anywhere
in the list? -/
def jsIncludesAux (needle : List Char) : List Char → Bool
  | [] => needle.isEmpty
  | a :: rest => listStartsWith (a :: rest) needle || jsIncludesAux needle rest

/-- Embedding of the JavaScript builtin `String.prototype.includes`:
contiguous substring test. -/
def jsIncludes (hay needle : String) : Bool := jsIncludesAux needle.data hay.data

/-- The three electoral divisions (`DivisionName` in
`lib/geo/electoral-divisions.ts`). -/
inductive DivisionName where
  | CRAIGHEAD
  | CHRISTIANA
  | WALDERSTON
deriving DecidableEq, Repr

/-- Community name keywords for the CRAIGHEAD division
(`CRAIGHEAD_KEYWORDS` in `lib/geo/electoral-divisions.ts`). -/
def CRAIGHEAD_KEYWORDS : List String :=
  ["CRAIGHEAD", "CONTRIVANCE", "LYNDHURST", "PIKE", "HARRY WATCH",
   "HARRY WATER", "AUGHTEMBEDDIE", "AUCHTEMBEDDIE", "GOOD INTENT"]

/-- Community name keywords for the CHRISTIANA division
(`CHRISTIANA_KEYWORDS` in `lib/geo/electoral-divisions.ts`). -/
def CHRISTIANA_KEYWORDS : List String :=
  ["HIBERNIA", "CHRISTIANA", "COLEYVILLE", "SILENT HILL",
   "SPRING GROUND", "SPALDING"]

/-- Community name keywords for the WALDERSTON division
(`WALDERSTON_KEYWORDS` in `lib/geo/electoral-divisions.ts`). -/
def WALDERSTON_KEYWORDS : List String :=
  ["BETHANY", "COBBLA", "CHUDLEIGH", "DEVON", "ROBBINS HALL",
   "ROBINS HALL", "COMFORT HALL", "TOP HILL", "WALDERSTON",
   "LITCHFIELD", "KENDAL", "WILLIAMSFIELD", "CHANTILLY", "BOMBA"]

/-- Embedding of `getDivisionForCommunity` in
`lib/geo/electoral-divisions.ts`: keyword match against the name
uppercased, CHRISTIANA first, then CRAIGHEAD, then WALDERSTON, with an
index mod 3 fallback over [CHRISTIANA, CRAIGHEAD, WALDERSTON]. -/
def getDivisionForCommunity (communityName : String) (index : Nat) : DivisionName :=
  let upperName := jsToUpperCase communityName
  if CHRISTIANA_KEYWORDS.any (fun keyword => jsIncludes upperName keyword) then
    .CHRISTIANA
  else if CRAIGHEAD_KEYWORDS.any (fun keyword => jsIncludes upperName keyword) then
    .CRAIGHEAD
  else if WALDERSTON_KEYWORDS.any (fun keyword => jsIncludes upperName keyword) then
    .WALDERSTON
  else
    [DivisionName.CHRISTIANA, DivisionName.CRAIGHEAD, DivisionName.WALDERSTON].get
      ⟨index % 3, Nat.mod_lt index (by decide)⟩

/-- A community feature as consumed by
`processCommunitiesWithDivisions`: only its (possibly missing)
`COMM_NAME_` property matters for division assignment. -/
structure CommunityFeature where
  COMM_NAME_ : Option String
deriving DecidableEq, Repr

/-- Helper for `processCommunitiesWithDivisions`: map over the feature
list carrying the dataset index, as the source's `.map((feature,
index) => ...)` does. -/
def processFrom (index : Nat) : List CommunityFeature → List (CommunityFeature × DivisionName)
  | [] => []
  | feature :: rest =>
    (feature, getDivisionForCommunity (feature.COMM_NAME_.getD "") index)
      :: processFrom (index + 1) rest

/-- Embedding of `processCommunitiesWithDivisions` in
`lib/geo/electoral-divisions.ts`: each community feature receives the
division given by `getDivisionForCommunity` of its name (missing name
treated as the empty string, as the source's `|| ''` does) at its
dataset index. -/
def processCommunitiesWithDivisions
    (communityGeoJson : List CommunityFeature) : List (CommunityFeature × DivisionName) :=
  processFrom 0 communityGeoJson

/-- A point in the plane (longitude and latitude as rationals). -/
structure Pt where
  lng : ℚ
  lat : ℚ
deriving DecidableEq, Repr

/-- Result of the external turf `booleanPointInPolygon` test on one
polygon: the point is inside, outside, or the polygon is invalid and
the test throws (which the source catches and skips). -/
inductive PipResult where
  | inside
  | outside
  | invalid
deriving DecidableEq, Repr

/-- A community polygon as seen by the division lookup: the external
turf containment test is abstracted as a function from points to a
`PipResult`. -/
structure CommunityPoly where
  pip : Pt → PipResult

/-- The grouped community polygons per division
(`groupByDivision`'s output, the `divisionsData` state). -/
abbrev DivisionsData := DivisionName → List CommunityPoly

/-- Embedding of the inner loop of `findDivisionForPoint`: scan a
division's community polygons, returning true on the first `inside`
hit; `outside` results and thrown geometry errors (`invalid`) are
skipped. -/
def anyPolyContains (point : Pt) : List CommunityPoly → Bool
  | [] => false
  | feature :: rest =>
    match feature.pip point with
    | .inside => true
    | _ => anyPolyContains point rest

/-- Embedding of `findDivisionForPoint` in the `MapView` component:
check CRAIGHEAD, then CHRISTIANA, then WALDERSTON; return the first
division one of whose community polygons contains the point, and null
(`none`) when no community polygon contains it. -/
def findDivisionForPoint (divisionsData : DivisionsData) (point : Pt) : Option DivisionName :=
  if anyPolyContains point (divisionsData .CRAIGHEAD) then some .CRAIGHEAD
  else if anyPolyContains point (divisionsData .CHRISTIANA) then some .CHRISTIANA
  else if anyPolyContains point (divisionsData .WALDERSTON) then some .WALDERSTON
  else none

/-- A JavaScript number-valued property that may be absent: absent
(`undefined`), `NaN`, or a finite value modelled as a rational. -/
inductive JsNumber where
  | undef
  | nan
  | val (x : ℚ)
deriving DecidableEq, Repr

/-- A parcel feature as consumed by the preprocessing step: its stable
`OBJECTID`, its optional `LV_NUMBER` valuation key, its declared
`SIZE_SQMT` area, and the turf `centroid` of its geometry (an external
computation, supplied as data). -/
structure ParcelFeature where
  OBJECTID : Nat
  LV_NUMBER : Option String
  SIZE_SQMT : JsNumber
  centroidPt : Pt

/-- The derived annotation record produced per parcel by the
preprocessing memo: `_isInNem`, `_hasOwner`, `_division`, carried
alongside the properties the filter stage reads. -/
structure AnnotatedParcel where
  OBJECTID : Nat
  SIZE_SQMT : JsNumber
  isInNem : Bool
  hasOwner : Bool
  division : Option DivisionName
deriving DecidableEq, Repr

/-- Embedding of the body of the `preprocessedParcels` memo in
`MapView` for one parcel feature: `_isInNem` is the boundary
containment test of the centroid (the constituency boundary is a fixed
valid polygon, so its containment test is total, `boundaryContains`);
`_hasOwner` is the `lvNumber ? ownerLookup.has(lvNumber) : false`
ternary (absent or empty key is falsy); `_division` is
`findDivisionForPoint` at the centroid. -/
def preprocessOne (boundaryContains : Pt → Bool) (divisionsData : DivisionsData)
    (ownerKeys : List String) (feature : ParcelFeature) : AnnotatedParcel :=
  let center := feature.centroidPt
  let isInNem := boundaryContains center
  let hasOwner :=
    match feature.LV_NUMBER with
    | none => false
    | some lv => if lv = "" then false else ownerKeys.contains lv
  let division := findDivisionForPoint divisionsData center
  { OBJECTID := feature.OBJECTID, SIZE_SQMT := feature.SIZE_SQMT,
    isInNem := isInNem, hasOwner := hasOwner, division := division }

/-- Embedding of the `preprocessedParcels` memo in `MapView`: one
annotated record per parcel feature, in order. -/
def preprocessedParcels (boundaryContains : Pt → Bool) (divisionsData : DivisionsData)
    (ownerKeys : List String) (parcels : List ParcelFeature) : List AnnotatedParcel :=
  parcels.map (preprocessOne boundaryContains divisionsData ownerKeys)

/-- The user-adjustable size range, inclusive at both ends
(the `sizeRange` state in `MapView`). -/
structure SizeRange where
  min : ℚ
  max : ℚ

/-- The filter configuration read by the filter memo in `MapView`:
the `nemOnly` and `ownersOnly` toggles, the size range, and the
per-division visibility record. -/
structure FilterConfig where
  nemOnly : Bool
  ownersOnly : Bool
  sizeRange : SizeRange
  visibleDivisions : DivisionName → Bool

/-- Embedding of the size-range filter predicate in the filter memo:
`if (!size || isNaN(size)) return true` keeps every falsy or NaN area
(absent, NaN, and the number 0 are all falsy), otherwise the parcel is
kept iff `size >= sizeRange.min && size <= sizeRange.max`. -/
def sizeRangeKeep (sizeRange : SizeRange) (size : JsNumber) : Bool :=
  match size with
  | .undef => true
  | .nan => true
  | .val x =>
    if x = 0 then true
    else decide (sizeRange.min ≤ x) && decide (x ≤ sizeRange.max)

/-- Embedding of the division filter predicate in the filter memo: a
parcel with no resolved division is kept, otherwise it is kept iff its
division is visible. -/
def divisionKeep (visibleDivisions : DivisionName → Bool) (division : Option DivisionName) : Bool :=
  match division with
  | none => true
  | some d => visibleDivisions d

/-- Embedding of the filter memo in `MapView` (the `parcelsWithIds`
computation): the preprocessed list is narrowed by the `nemOnly`
filter (when on), then the `ownersOnly` filter (when on), then the
size-range filter, then the visible-divisions filter. -/
def applyFilters (config : FilterConfig) (preprocessed : List AnnotatedParcel) : List AnnotatedParcel :=
  let l1 := if config.nemOnly then preprocessed.filter (fun f => f.isInNem) else preprocessed
  let l2 := if config.ownersOnly then l1.filter (fun f => f.hasOwner) else l1
  let l3 := l2.filter (fun f => sizeRangeKeep config.sizeRange f.SIZE_SQMT)
  l3.filter (fun f => divisionKeep config.visibleDivisions f.division)

/-- The aggregate counts computed alongside the displayed subset
(`parcelCounts` in `MapView`). -/
structure ParcelCountsRec where
  total : Nat
  nem : Nat
  withOwners : Nat
  displayed : Nat
deriving DecidableEq, Repr

/-- Embedding of the `parcelCounts` record built by the filter memo:
`total` is the preprocessed length, `nem` and `withOwners` the counts
accumulated during preprocessing, and `displayed` the length of the
filtered feature list. -/
def parcelCounts (config : FilterConfig) (preprocessed : List AnnotatedParcel)
    (nemCount withOwnersCount : Nat) : ParcelCountsRec :=
  { total := preprocessed.length, nem := nemCount, withOwners := withOwnersCount,
    displayed := (applyFilters config preprocessed).length }

/-- An entry of the ordered selection (`SelectedParcel` in `MapView`):
the parcel's stable `OBJECTID` key, its computed center, and its
1-based `selectionOrder`. -/
structure SelEntry where
  OBJECTID : Nat
  center : Pt
  selectionOrder : Nat
deriving DecidableEq, Repr

/-- Helper for `renumber`: the source's `.map((p, i) => ({ ...p,
selectionOrder: i + 1 }))`, carrying the position explicitly. -/
def renumberFrom (index : Nat) : List SelEntry → List SelEntry
  | [] => []
  | p :: rest => { p with selectionOrder := index + 1 } :: renumberFrom (index + 1) rest

/-- Renumber a selection list densely from 1 by list position, as the
source does after every removal or reorder. -/
def renumber (parcels : List SelEntry) : List SelEntry := renumberFrom 0 parcels

/-- Embedding of the `setSelectedParcels` updater inside `handleClick`
in `MapView`, for a click that hit a parcel: look up the parcel's
first index in the current selection; in multi-select mode remove it
(and renumber) when present, else append it with order `length + 1`;
in single-select mode clear the list when it is the sole selected
parcel, else replace the whole list with this parcel at order 1. -/
def handleClickParcel (multi : Bool) (oid : Nat) (center : Pt)
    (prev : List SelEntry) : List SelEntry :=
  let existingIndex := prev.findIdx? (fun p => p.OBJECTID == oid)
  if multi then
    match existingIndex with
    | some i => renumber (prev.eraseIdx i)
    | none => prev ++ [{ OBJECTID := oid, center := center, selectionOrder := prev.length + 1 }]
  else
    match existingIndex with
    | some _ =>
      if prev.length == 1 then []
      else [{ OBJECTID := oid, center := center, selectionOrder := 1 }]
    | none => [{ OBJECTID := oid, center := center, selectionOrder := 1 }]

/-- Embedding of `handleRemoveParcel` in `MapView`: drop every entry
with the given `OBJECTID` and renumber. -/
def handleRemoveParcel (objectId : Nat) (prev : List SelEntry) : List SelEntry :=
  renumber (prev.filter (fun p => p.OBJECTID != objectId))

/-- Embedding of `handleDrop` in `MultiParcelPanel` composed with
`handleReorderParcels` in `MapView`: when the drag and drop positions
differ, splice the dragged entry out, splice it back in at the drop
position, and renumber.  The indices come from rendered list
positions, so the dragged index is always in range; an out-of-range
index is modelled as a no-op. -/
def handleDrop (dragIndex dropIndex : Nat) (selectedParcels : List SelEntry) : List SelEntry :=
  if dragIndex = dropIndex then selectedParcels
  else
    match selectedParcels.get? dragIndex with
    | none => selectedParcels
    | some draggedItem =>
      renumber ((selectedParcels.eraseIdx dragIndex).insertIdx dropIndex draggedItem)

/-- One user-driven transition of the selection state machine: a click
on a parcel (with its multi-select flag), a click on empty space, an
explicit remove, a drag-and-drop reorder (indices of rendered
entries), or an explicit clear-all. -/
inductive SelStep : List SelEntry → List SelEntry → Prop where
  | clickParcel (multi : Bool) (oid : Nat) (center : Pt) (s : List SelEntry) :
      SelStep s (handleClickParcel multi oid center s)
  | clickEmpty (s : List SelEntry) : SelStep s []
  | removeParcel (objectId : Nat) (s : List SelEntry) :
      SelStep s (handleRemoveParcel objectId s)
  | dropReorder (dragIndex dropIndex : Nat) (s : List SelEntry)
      (hdrag : dragIndex < s.length) (hdrop : dropIndex < s.length) :
      SelStep s (handleDrop dragIndex dropIndex s)
  | clearAll (s : List SelEntry) : SelStep s []

/-- Selection lists reachable from the initial empty selection by any
sequence of selection transitions. -/
inductive SelReachable : List SelEntry → Prop where
  | empty : SelReachable []
  | step {s t : List SelEntry} : SelReachable s → SelStep s t → SelReachable t

/-- The order field of the entry at position i is i + 1. -/
def ordersMatchPosition (s : List SelEntry) : Prop :=
  ∀ i (h : i < s.length), (s.get ⟨i, h⟩).selectionOrder = i + 1

/-- No two selection entries share a parcel id. -/
def noDuplicateIds (s : List SelEntry) : Prop :=
  (s.map (fun p => p.OBJECTID)).Nodup

/-- The selection invariant: orders form the contiguous sequence
1..N matching list position, and parcel ids are pairwise distinct. -/
def SelInvariant (s : List SelEntry) : Prop :=
  ordersMatchPosition s ∧ noDuplicateIds s

/-- A saved project record (`SavedProject` in `lib/types/project.ts`). -/
structure SavedProject where
  id : String
  name : String
  parcelIds : List Nat
  createdAt : Nat
  updatedAt : Nat
deriving DecidableEq, Repr

/-- Embedding of `saveProject` in `lib/hooks/useProjects.ts`.  The
generated identifier (from `crypto.randomUUID`) and the current
`Date.now()` timestamp are external inputs, passed explicitly.
Returns the new record and the updated collection; a blank name
(empty after trimming) falls back to the default name built from the
current record count. -/
def saveProject (projects : List SavedProject) (newId : String) (now : Nat)
    (name : String) (parcelIds : List Nat) : SavedProject × List SavedProject :=
  let newProject : SavedProject :=
    { id := newId,
      name := if jsTrim name = "" then "Project " ++ Nat.repr (projects.length + 1) else jsTrim name,
      parcelIds := parcelIds, createdAt := now, updatedAt := now }
  (newProject, projects ++ [newProject])

/-- Embedding of `updateProject` in `lib/hooks/useProjects.ts`:
replace the parcel list and `updatedAt` of every record whose id
matches; records with a different id are untouched (unknown id is a
no-op). -/
def updateProject (projects : List SavedProject) (id : String)
    (parcelIds : List Nat) (now : Nat) : List SavedProject :=
  projects.map (fun proj =>
    if proj.id == id then { proj with parcelIds := parcelIds, updatedAt := now } else proj)

/-- Embedding of `renameProject` in `lib/hooks/useProjects.ts`: for a
matching record the name becomes `newName.trim() || proj.name` (a
blank new name keeps the old one) and `updatedAt` becomes the current
time; other records are untouched. -/
def renameProject (projects : List SavedProject) (id : String)
    (newName : String) (now : Nat) : List SavedProject :=
  projects.map (fun proj =>
    if proj.id == id then
      { proj with name := if jsTrim newName = "" then proj.name else jsTrim newName,
                  updatedAt := now }
    else proj)

/-- Embedding of `deleteProject` in `lib/hooks/useProjects.ts`. -/
def deleteProject (projects : List SavedProject) (id : String) : List SavedProject :=
  projects.filter (fun proj => proj.id != id)

/-- Embedding of `getProject` in `lib/hooks/useProjects.ts`: first
record whose id matches, if any. -/
def getProject (projects : List SavedProject) (id : String) : Option SavedProject :=
  projects.find? (fun proj => proj.id == id)

/-- A saved selection record (`SavedSelection` in
`lib/types/saved-selection.ts`). -/
structure SavedSelection where
  id : String
  name : String
  parcelIds : List Nat
  createdAt : Nat
  updatedAt : Nat
deriving DecidableEq, Repr

/-- Embedding of `saveSelection` in the `useSavedSelections` hook:
identical to `saveProject` except that the default name for a blank
input is built with the prefix "Selection ". -/
def saveSelection (selections : List SavedSelection) (newId : String) (now : Nat)
    (name : String) (parcelIds : List Nat) : SavedSelection × List SavedSelection :=
  let newSelection : SavedSelection :=
    { id := newId,
      name := if jsTrim name = "" then "Selection " ++ Nat.repr (selections.length + 1) else jsTrim name,
      parcelIds := parcelIds, createdAt := now, updatedAt := now }
  (newSelection, selections ++ [newSelection])

/-- Does the uppercased name contain any keyword of the list?  This is
the claim-side reading of "contains any keyword", written with the
same JavaScript `includes` semantics the source uses. -/
def matchesAnyKeyword (keywords : List String) (upperName : String) : Bool :=
  keywords.any (fun keyword => jsIncludes upperName keyword)

/-- Claim-side restatement of the division assignment rule for a
community name at a dataset index: CHRISTIANA on a CHRISTIANA keyword
match of the uppercased name, else CRAIGHEAD on a CRAIGHEAD match,
else WALDERSTON on a WALDERSTON match, else the division at position
index mod 3 of [CHRISTIANA, CRAIGHEAD, WALDERSTON]. -/
def claimDivisionFor (s : String) (index : Nat) : DivisionName :=
  if matchesAnyKeyword CHRISTIANA_KEYWORDS (jsToUpperCase s) then .CHRISTIANA
  else if matchesAnyKeyword CRAIGHEAD_KEYWORDS (jsToUpperCase s) then .CRAIGHEAD
  else if matchesAnyKeyword WALDERSTON_KEYWORDS (jsToUpperCase s) then .WALDERSTON
  else
    [DivisionName.CHRISTIANA, DivisionName.CRAIGHEAD, DivisionName.WALDERSTON].get
      ⟨index % 3, Nat.mod_lt index (by decide)⟩

/-- The claim-side predicate of the boundary filter: pass unless the
`nemOnly` toggle is on and the parcel is outside the boundary. -/
def boundaryPasses (config : FilterConfig) (f : AnnotatedParcel) : Bool :=
  !config.nemOnly || f.isInNem

/-- The claim-side predicate of the owner filter: pass unless the
`ownersOnly` toggle is on and the parcel has no owner. -/
def ownerPasses (config : FilterConfig) (f : AnnotatedParcel) : Bool :=
  !config.ownersOnly || f.hasOwner

/-- The conjunction of the four filter predicates. -/
def passesAllFilters (config : FilterConfig) (f : AnnotatedParcel) : Bool :=
  boundaryPasses config f && ownerPasses config f &&
    sizeRangeKeep config.sizeRange f.SIZE_SQMT &&
    divisionKeep config.visibleDivisions f.division

theorem processFrom_length (index : Nat) (cs : List CommunityFeature) :
    (processFrom index cs).length = cs.length := by
  induction cs generalizing index with
  | nil => rfl
  | cons c rest ih => simp [processFrom, ih]

theorem processFrom_get (index : Nat) (cs : List CommunityFeature) (i : Nat)
    (h1 : i < cs.length) (h2 : i < (processFrom index cs).length) :
    (processFrom index cs).get ⟨i, h2⟩ =
      (cs.get ⟨i, h1⟩,
       getDivisionForCommunity ((cs.get ⟨i, h1⟩).COMM_NAME_.getD "") (index + i)) := by
  induction cs generalizing index i with
  | nil => cases h1
  | cons c rest ih =>
    cases i with
    | zero => simp [processFrom]
    | succ j =>
      have h1' : j < rest.length := Nat.lt_of_succ_lt_succ h1
      have h2' : j < (processFrom (index + 1) rest).length := by
        rw [processFrom_length]; exact h1'
      have := ih (index + 1) j h1' h2'
      simp only [processFrom, List.get_cons_succ, this]
      congr 2
      omega

theorem getDivisionForCommunity_eq_claim (s : String) (index : Nat) :
    getDivisionForCommunity s index = claimDivisionFor s index := rfl

/-- C2: for every community polygon with name string s at dataset
index i, the assigned division is CHRISTIANA on a CHRISTIANA keyword
match (case-insensitive substring, first match in priority order
wins), else CRAIGHEAD on a CRAIGHEAD match, else WALDERSTON on a
WALDERSTON match, else the division at position i mod 3 of
[CHRISTIANA, CRAIGHEAD, WALDERSTON]; and every community is assigned
exactly one division (one output pair per input feature, in order). -/
theorem division_assignment_spec (communityGeoJson : List CommunityFeature) :
    (processCommunitiesWithDivisions communityGeoJson).length = communityGeoJson.length ∧
    ∀ i (h1 : i < communityGeoJson.length)
      (h2 : i < (processCommunitiesWithDivisions communityGeoJson).length),
      (processCommunitiesWithDivisions communityGeoJson).get ⟨i, h2⟩ =
        (communityGeoJson.get ⟨i, h1⟩,
         claimDivisionFor ((communityGeoJson.get ⟨i, h1⟩).COMM_NAME_.getD "") i) := by
  constructor
  · exact processFrom_length 0 communityGeoJson
  · intro i h1 h2
    have h := processFrom_get 0 communityGeoJson i h1 h2
    rw [getDivisionForCommunity_eq_claim] at h
    simpa using h

/-- Concrete community dataset for the C2 witness: a name matching a
CHRISTIANA keyword, and an unmatched name at index 1. -/
def communitiesW : List CommunityFeature :=
  [{ COMM_NAME_ := some "Hibernia District" }, { COMM_NAME_ := some "Unknown Place" }]

theorem division_assignment_spec_witness :
    (processCommunitiesWithDivisions communitiesW).length = communitiesW.length ∧
    (processCommunitiesWithDivisions communitiesW).get ⟨1, by decide⟩ =
      (communitiesW.get ⟨1, by decide⟩, claimDivisionFor "Unknown Place" 1) :=
  ⟨(division_assignment_spec communitiesW).1,
   (division_assignment_spec communitiesW).2 1 (by decide) (by decide)⟩

theorem applyFilters_eq_filter (config : FilterConfig) (preprocessed : List AnnotatedParcel) :
    applyFilters config preprocessed = preprocessed.filter (passesAllFilters config) := by
  unfold applyFilters
  cases hn : config.nemOnly <;> cases ho : config.ownersOnly
  all_goals simp only [Bool.false_eq_true, if_true, if_false, ite_true, ite_false,
    List.filter_filter]
  all_goals refine List.filter_congr fun f _ => ?_
  all_goals
    cases hb : f.isInNem <;> cases hw : f.hasOwner <;>
      cases hs : sizeRangeKeep config.sizeRange f.SIZE_SQMT <;>
      cases hd : divisionKeep config.visibleDivisions f.division <;>
      simp [passesAllFilters, boundaryPasses, ownerPasses, hn, ho, hb, hw, hs, hd]

/-- C1: a preprocessed parcel is in the displayed subset iff it is in
the input set and passes all four predicates (boundary when `nemOnly`
is on, owner when `ownersOnly` is on, the fail-open size-range check,
and the fail-open division-visibility check); and the `displayed`
count is the number of parcels in the displayed subset, which equals
the number of input parcels passing the conjunction. -/
theorem displayed_iff_passes (config : FilterConfig) (preprocessed : List AnnotatedParcel)
    (nemCount withOwnersCount : Nat) :
    (∀ f, f ∈ applyFilters config preprocessed ↔
        f ∈ preprocessed ∧ boundaryPasses config f = true ∧ ownerPasses config f = true ∧
          sizeRangeKeep config.sizeRange f.SIZE_SQMT = true ∧
          divisionKeep config.visibleDivisions f.division = true) ∧
    (parcelCounts config preprocessed nemCount withOwnersCount).displayed =
      (applyFilters config preprocessed).length ∧
    (applyFilters config preprocessed).length =
      preprocessed.countP (passesAllFilters config) := by
  refine ⟨fun f => ?_, rfl, ?_⟩
  · rw [applyFilters_eq_filter, List.mem_filter]
    simp [passesAllFilters, and_assoc]
  · rw [applyFilters_eq_filter, List.countP_eq_length_filter]

/-- C9: a parcel whose declared area is exactly 0 passes the size
filter for every size range, because the code's missing-area check
treats every falsy area (absent, NaN, and 0) as absent; in particular
for ranges with positive min, which the inclusive rule
min ≤ area ≤ max would reject at area 0. -/
theorem size_zero_always_passes (sizeRange : SizeRange) (f : AnnotatedParcel)
    (hsize : f.SIZE_SQMT = JsNumber.val 0) :
    sizeRangeKeep sizeRange f.SIZE_SQMT = true ∧
    (0 < sizeRange.min → ¬(sizeRange.min ≤ 0 ∧ (0 : ℚ) ≤ sizeRange.max)) := by
  constructor
  · rw [hsize]; simp [sizeRangeKeep]
  · rintro hmin ⟨hle, -⟩
    exact absurd hle (not_le.mpr hmin)

/-- Concrete annotated parcel with declared area 0 for the C9 witness. -/
def zeroAreaParcelW : AnnotatedParcel :=
  { OBJECTID := 7, SIZE_SQMT := JsNumber.val 0, isInNem := true,
    hasOwner := false, division := none }

/-- Does some community polygon of the division contain the point
(the turf test returning inside; errors and outside do not count)? -/
def divisionContainsPt (divisionsData : DivisionsData) (d : DivisionName) (point : Pt) : Prop :=
  ∃ poly ∈ divisionsData d, poly.pip point = PipResult.inside

/-- The divisions scanned before a given one in the fixed
CRAIGHEAD, CHRISTIANA, WALDERSTON lookup order. -/
def earlierDivisions : DivisionName → List DivisionName
  | .CRAIGHEAD => []
  | .CHRISTIANA => [.CRAIGHEAD]
  | .WALDERSTON => [.CRAIGHEAD, .CHRISTIANA]

theorem forall_division (p : DivisionName → Prop) :
    (∀ d, p d) ↔ p .CRAIGHEAD ∧ p .CHRISTIANA ∧ p .WALDERSTON := by
  constructor
  · intro h; exact ⟨h _, h _, h _⟩
  · rintro ⟨h1, h2, h3⟩ d; cases d <;> assumption

theorem anyPolyContains_iff (point : Pt) (polys : List CommunityPoly) :
    anyPolyContains point polys = true ↔ ∃ poly ∈ polys, poly.pip point = PipResult.inside := by
  induction polys with
  | nil => simp [anyPolyContains]
  | cons feature rest ih =>
    cases hp : feature.pip point <;> simp [anyPolyContains, hp, ih]

theorem divisionContains_iff_any (divisionsData : DivisionsData) (d : DivisionName) (point : Pt) :
    divisionContainsPt divisionsData d point ↔
      anyPolyContains point (divisionsData d) = true :=
  (anyPolyContains_iff point (divisionsData d)).symm

theorem findDivisionForPoint_spec (divisionsData : DivisionsData) (point : Pt) :
    (findDivisionForPoint divisionsData point = none ↔
      ∀ d, ¬ divisionContainsPt divisionsData d point) ∧
    ∀ d, findDivisionForPoint divisionsData point = some d ↔
      divisionContainsPt divisionsData d point ∧
        ∀ e ∈ earlierDivisions d, ¬ divisionContainsPt divisionsData e point := by
  unfold findDivisionForPoint
  cases hc : anyPolyContains point (divisionsData .CRAIGHEAD) <;>
    cases hh : anyPolyContains point (divisionsData .CHRISTIANA) <;>
      cases hw : anyPolyContains point (divisionsData .WALDERSTON)
  all_goals
    refine ⟨?_, ?_⟩
  all_goals
    try intro d
  all_goals
    try cases d
  all_goals
    simp [forall_division, divisionContains_iff_any, earlierDivisions, hc, hh, hw]

/-- Claim-side per-parcel specification of the preprocessing step:
the owner flag holds iff the parcel's `LV_NUMBER` is present,
non-empty, and in the owner lookup; the boundary flag is the
containment test of the centroid against the constituency boundary;
and the division is null exactly when no community polygon contains
the centroid, and otherwise is the first division (in scan order)
one of whose community polygons contains the centroid. -/
def preprocessSpecAt (boundaryContains : Pt → Bool) (divisionsData : DivisionsData)
    (ownerKeys : List String) (feature : ParcelFeature) (a : AnnotatedParcel) : Prop :=
  (a.hasOwner = true ↔ ∃ lv, feature.LV_NUMBER = some lv ∧ lv ≠ "" ∧ lv ∈ ownerKeys) ∧
  a.isInNem = boundaryContains feature.centroidPt ∧
  (a.division = none ↔ ∀ d, ¬ divisionContainsPt divisionsData d feature.centroidPt) ∧
  (∀ d, a.division = some d ↔
    divisionContainsPt divisionsData d feature.centroidPt ∧
      ∀ e ∈ earlierDivisions d, ¬ divisionContainsPt divisionsData e feature.centroidPt)

theorem preprocessOne_spec (boundaryContains : Pt → Bool) (divisionsData : DivisionsData)
    (ownerKeys : List String) (feature : ParcelFeature) :
    preprocessSpecAt boundaryContains divisionsData ownerKeys feature
      (preprocessOne boundaryContains divisionsData ownerKeys feature) := by
  refine ⟨?_, rfl, ?_, ?_⟩
  · show (match feature.LV_NUMBER with
      | none => false
      | some lv => if lv = "" then false else ownerKeys.contains lv) = true ↔ _
    cases hlv : feature.LV_NUMBER with
    | none => simp
    | some lv =>
      by_cases he : lv = "" <;> simp [he, List.elem_iff]
  · exact (findDivisionForPoint_spec divisionsData feature.centroidPt).1
  · exact (findDivisionForPoint_spec divisionsData feature.centroidPt).2

/-- C3: preprocessing produces exactly one annotated record per
parcel (in order), and each record satisfies the per-parcel
specification: owner flag iff non-empty `LV_NUMBER` present in the
lookup, boundary flag from the centroid containment test, and the
division resolved as the first containing division or null. -/
theorem preprocess_spec (boundaryContains : Pt → Bool) (divisionsData : DivisionsData)
    (ownerKeys : List String) (parcels : List ParcelFeature) :
    (preprocessedParcels boundaryContains divisionsData ownerKeys parcels).length = parcels.length ∧
    ∀ i (h1 : i < parcels.length)
      (h2 : i < (preprocessedParcels boundaryContains divisionsData ownerKeys parcels).length),
      preprocessSpecAt boundaryContains divisionsData ownerKeys (parcels.get ⟨i, h1⟩)
        ((preprocessedParcels boundaryContains divisionsData ownerKeys parcels).get ⟨i, h2⟩) := by
  refine ⟨List.length_map _ _, ?_⟩
  intro i h1 h2
  have hg : (preprocessedParcels boundaryContains divisionsData ownerKeys parcels).get ⟨i, h2⟩ =
      preprocessOne boundaryContains divisionsData ownerKeys (parcels.get ⟨i, h1⟩) := by
    simp [preprocessedParcels, List.get_eq_getElem, List.getElem_map]
  rw [hg]
  exact preprocessOne_spec boundaryContains divisionsData ownerKeys (parcels.get ⟨i, h1⟩)

/-- Concrete boundary containment test for the C3 witness. -/
def boundaryContainsW : Pt → Bool := fun point => decide (point.lng ≤ 10)

/-- Concrete community polygon containing low-latitude points. -/
def polyLowLatW : CommunityPoly :=
  { pip := fun point => if point.lat ≤ 5 then PipResult.inside else PipResult.outside }

/-- Concrete invalid community polygon (its turf test always throws). -/
def polyInvalidW : CommunityPoly := { pip := fun _ => PipResult.invalid }

/-- Concrete grouped divisions for the C3 witness. -/
def divisionsDataW : DivisionsData := fun d =>
  match d with
  | .CRAIGHEAD => [polyInvalidW]
  | .CHRISTIANA => [polyLowLatW]
  | .WALDERSTON => []

/-- Concrete parcel list for the C3 witness. -/
def parcelsW : List ParcelFeature :=
  [{ OBJECTID := 1, LV_NUMBER := some "LV1", SIZE_SQMT := JsNumber.val 3000,
     centroidPt := { lng := 2, lat := 3 } }]

/-- Concrete owner lookup keys for the C3 witness. -/
def ownerKeysW : List String := ["LV1"]

theorem preprocess_spec_witness :
    (preprocessedParcels boundaryContainsW divisionsDataW ownerKeysW parcelsW).length =
      parcelsW.length ∧
    preprocessSpecAt boundaryContainsW divisionsDataW ownerKeysW (parcelsW.get ⟨0, by decide⟩)
      ((preprocessedParcels boundaryContainsW divisionsDataW ownerKeysW parcelsW).get
        ⟨0, by decide⟩) :=
  ⟨(preprocess_spec boundaryContainsW divisionsDataW ownerKeysW parcelsW).1,
   (preprocess_spec boundaryContainsW divisionsDataW ownerKeysW parcelsW).2 0
     (by decide) (by decide)⟩

theorem size_zero_always_passes_witness :
    sizeRangeKeep { min := 1000, max := 5000 } zeroAreaParcelW.SIZE_SQMT = true ∧
    (0 < ({ min := 1000, max := 5000 } : SizeRange).min →
      ¬(({ min := 1000, max := 5000 } : SizeRange).min ≤ 0 ∧
        (0 : ℚ) ≤ ({ min := 1000, max := 5000 } : SizeRange).max)) :=
  size_zero_always_passes { min := 1000, max := 5000 } zeroAreaParcelW rfl

theorem renumberFrom_length (index : Nat) (s : List SelEntry) :
    (renumberFrom index s).length = s.length := by
  induction s generalizing index with
  | nil => rfl
  | cons a t ih => simp [renumberFrom, ih]

theorem renumberFrom_get (index : Nat) (s : List SelEntry) (i : Nat)
    (h1 : i < s.length) (h2 : i < (renumberFrom index s).length) :
    (renumberFrom index s).get ⟨i, h2⟩ =
      { s.get ⟨i, h1⟩ with selectionOrder := index + i + 1 } := by
  induction s generalizing index i with
  | nil => cases h1
  | cons a t ih =>
    cases i with
    | zero => simp [renumberFrom]
    | succ j =>
      have h1' : j < t.length := Nat.lt_of_succ_lt_succ h1
      have h2' : j < (renumberFrom (index + 1) t).length := by
        rw [renumberFrom_length]; exact h1'
      have hj := ih (index + 1) j h1' h2'
      simp only [renumberFrom, List.get_cons_succ, hj]
      congr 1
      omega

theorem renumberFrom_map_oid (index : Nat) (s : List SelEntry) :
    (renumberFrom index s).map (fun p => p.OBJECTID) = s.map (fun p => p.OBJECTID) := by
  induction s generalizing index with
  | nil => rfl
  | cons a t ih => simp [renumberFrom, ih]

theorem renumber_ordersMatchPosition (s : List SelEntry) :
    ordersMatchPosition (renumber s) := by
  intro i h
  have h1 : i < s.length := by
    have := renumberFrom_length 0 s
    simp only [renumber] at h
    omega
  show ((renumberFrom 0 s).get ⟨i, h⟩).selectionOrder = i + 1
  rw [renumberFrom_get 0 s i h1 h]
  simp

theorem renumber_noDuplicateIds (s : List SelEntry)
    (h : (s.map (fun p => p.OBJECTID)).Nodup) :
    ((renumber s).map (fun p => p.OBJECTID)).Nodup := by
  show ((renumberFrom 0 s).map (fun p => p.OBJECTID)).Nodup
  rw [renumberFrom_map_oid]
  exact h

theorem findIdx?_none_iff {α : Type} (p : α → Bool) (l : List α) (j : Nat) :
    l.findIdx? p j = none ↔ ∀ x ∈ l, p x = false := by
  induction l generalizing j with
  | nil => simp [List.findIdx?]
  | cons a t ih =>
    rw [List.findIdx?_cons]
    by_cases h : p a = true
    · simp [h]
    · have hf : p a = false := by revert h; cases p a <;> simp
      simp [hf, ih (j + 1)]

theorem findIdx?_some_le {α : Type} (p : α → Bool) (l : List α) (j i : Nat)
    (h : l.findIdx? p j = some i) : j ≤ i := by
  induction l generalizing j with
  | nil => simp [List.findIdx?] at h
  | cons a t ih =>
    rw [List.findIdx?_cons] at h
    by_cases hp : p a = true
    · rw [if_pos hp] at h
      injection h with h
      omega
    · rw [if_neg hp] at h
      have := ih (j + 1) h
      omega

theorem findIdx?_some_exists {α : Type} (p : α → Bool) (l : List α) (j i : Nat)
    (h : l.findIdx? p j = some i) : ∃ x ∈ l, p x = true := by
  induction l generalizing j with
  | nil => simp [List.findIdx?] at h
  | cons a t ih =>
    rw [List.findIdx?_cons] at h
    by_cases hp : p a = true
    · exact ⟨a, by simp, hp⟩
    · rw [if_neg hp] at h
      obtain ⟨x, hx, hpx⟩ := ih (j + 1) h
      exact ⟨x, by simp [hx], hpx⟩

theorem filter_ne_of_not_mem (oid : Nat) (t : List SelEntry)
    (h : oid ∉ t.map (fun p => p.OBJECTID)) :
    t.filter (fun p => p.OBJECTID != oid) = t := by
  rw [List.filter_eq_self]
  intro x hx
  have : x.OBJECTID ≠ oid := by
    intro hcontra
    exact h (List.mem_map.mpr ⟨x, hx, hcontra⟩)
  simpa using this

theorem eraseIdx_first_match_eq_filter (oid : Nat) (s : List SelEntry) (j i : Nat)
    (hfind : s.findIdx? (fun p => p.OBJECTID == oid) j = some i)
    (hnd : (s.map (fun p => p.OBJECTID)).Nodup) :
    s.eraseIdx (i - j) = s.filter (fun p => p.OBJECTID != oid) := by
  induction s generalizing j i with
  | nil => simp [List.findIdx?] at hfind
  | cons a t ih =>
    rw [List.findIdx?_cons] at hfind
    simp only [List.map_cons, List.nodup_cons] at hnd
    obtain ⟨hna, hndt⟩ := hnd
    by_cases hp : (a.OBJECTID == oid) = true
    · rw [if_pos hp] at hfind
      injection hfind with hij
      subst hij
      have haoid : a.OBJECTID = oid := by simpa using hp
      have hnot : oid ∉ t.map (fun p => p.OBJECTID) := by
        rw [← haoid]; exact hna
      rw [Nat.sub_self]
      rw [List.filter_cons]
      have hpa : (a.OBJECTID != oid) = false := by simp [haoid]
      rw [if_neg (by simp [hpa]), filter_ne_of_not_mem oid t hnot]
      rfl
    · rw [if_neg hp] at hfind
      have hle := findIdx?_some_le _ t (j + 1) i hfind
      have hsub : i - j = (i - (j + 1)) + 1 := by omega
      rw [hsub]
      have hpa : (a.OBJECTID != oid) = true := by
        revert hp; cases hb : (a.OBJECTID == oid) <;> simp [bne, hb]
      rw [List.filter_cons, if_pos hpa]
      show a :: t.eraseIdx (i - (j + 1)) = a :: t.filter (fun p => p.OBJECTID != oid)
      rw [ih (j + 1) i hfind hndt]

theorem filter_ne_length (oid : Nat) (s : List SelEntry)
    (hnd : (s.map (fun p => p.OBJECTID)).Nodup)
    (hm : oid ∈ s.map (fun p => p.OBJECTID)) :
    (s.filter (fun p => p.OBJECTID != oid)).length + 1 = s.length := by
  induction s with
  | nil => simp at hm
  | cons a t ih =>
    simp only [List.map_cons, List.nodup_cons] at hnd
    obtain ⟨hna, hndt⟩ := hnd
    by_cases ha : a.OBJECTID = oid
    · have hnot : oid ∉ t.map (fun p => p.OBJECTID) := by rw [← ha]; exact hna
      rw [List.filter_cons, if_neg (by simp [ha]), filter_ne_of_not_mem oid t hnot]
      simp
    · have hmt : oid ∈ t.map (fun p => p.OBJECTID) := by
        have hm' := hm
        simp only [List.map_cons, List.mem_cons] at hm'
        rcases hm' with h | h
        · exact absurd h.symm ha
        · exact h
      rw [List.filter_cons, if_pos (by simpa using ha)]
      have := ih hndt hmt
      simp only [List.length_cons]
      omega

theorem ordersMatchPosition_nil : ordersMatchPosition [] := by
  intro i h
  simp at h

theorem SelInvariant_nil : SelInvariant [] :=
  ⟨ordersMatchPosition_nil, by simp [noDuplicateIds]⟩

theorem SelInvariant_singleton (oid : Nat) (center : Pt) :
    SelInvariant [{ OBJECTID := oid, center := center, selectionOrder := 1 }] := by
  constructor
  · intro i h
    simp only [List.length_singleton] at h
    interval_cases i
    rfl
  · simp [noDuplicateIds]

theorem ordersMatchPosition_append (s : List SelEntry) (e : SelEntry)
    (hs : ordersMatchPosition s) (he : e.selectionOrder = s.length + 1) :
    ordersMatchPosition (s ++ [e]) := by
  intro i h
  rw [List.get_eq_getElem, List.getElem_append]
  by_cases hi : i < s.length
  · rw [dif_pos hi]
    have := hs i hi
    rw [List.get_eq_getElem] at this
    exact this
  · rw [dif_neg hi]
    have hlen : i < s.length + 1 := by simpa using h
    have hieq : i = s.length := by omega
    subst hieq
    simpa using he

theorem get_cons_eraseIdx_perm (s : List SelEntry) (i : Nat) (h : i < s.length) :
    (s.get ⟨i, h⟩ :: s.eraseIdx i).Perm s := by
  induction s generalizing i with
  | nil => cases h
  | cons a t ih =>
    cases i with
    | zero => simp [List.eraseIdx]
    | succ j =>
      have h' : j < t.length := Nat.lt_of_succ_lt_succ h
      have hperm := ih j h'
      have hstep : ((a :: t).get ⟨j + 1, h⟩ :: (a :: t).eraseIdx (j + 1)) =
          t.get ⟨j, h'⟩ :: a :: t.eraseIdx j := by simp [List.eraseIdx]
      rw [hstep]
      exact (List.Perm.swap a _ _).trans (hperm.cons a)

theorem handleClickParcel_invariant (multi : Bool) (oid : Nat) (center : Pt)
    (s : List SelEntry) (h : SelInvariant s) :
    SelInvariant (handleClickParcel multi oid center s) := by
  obtain ⟨ho, hn⟩ := h
  cases hfind : s.findIdx? (fun p => p.OBJECTID == oid) with
  | some i =>
    cases multi
    · simp only [handleClickParcel, hfind, if_false, Bool.false_eq_true, ite_false]
      by_cases hl : s.length == 1
      · simp only [hl, if_true, ite_true]
        exact SelInvariant_nil
      · simp only [hl, if_false, Bool.false_eq_true, ite_false]
        exact SelInvariant_singleton oid center
    · simp only [handleClickParcel, hfind, if_true, ite_true]
      refine ⟨renumber_ordersMatchPosition _, ?_⟩
      apply renumber_noDuplicateIds
      exact List.Nodup.sublist (List.Sublist.map _ (List.eraseIdx_sublist s i)) hn
  | none =>
    have hnotmem : oid ∉ s.map (fun p => p.OBJECTID) := by
      intro hmem
      obtain ⟨x, hx, hoid⟩ := List.mem_map.mp hmem
      have := (findIdx?_none_iff (fun p => p.OBJECTID == oid) s 0).mp hfind x hx
      simp [hoid] at this
    cases multi
    · simp only [handleClickParcel, hfind, if_false, Bool.false_eq_true, ite_false]
      exact SelInvariant_singleton oid center
    · simp only [handleClickParcel, hfind, if_true, ite_true]
      constructor
      · exact ordersMatchPosition_append s _ ho rfl
      · unfold noDuplicateIds
        rw [List.map_append]
        simp only [List.map_cons, List.map_nil, List.nodup_append, List.disjoint_singleton]
        refine ⟨hn, by simp, ?_⟩
        intro hmem
        exact hnotmem hmem

theorem handleRemoveParcel_invariant (objectId : Nat) (s : List SelEntry)
    (h : SelInvariant s) : SelInvariant (handleRemoveParcel objectId s) := by
  obtain ⟨-, hn⟩ := h
  refine ⟨renumber_ordersMatchPosition _, ?_⟩
  apply renumber_noDuplicateIds
  have hsub : (s.filter (fun p => p.OBJECTID != objectId)).Sublist s := List.filter_sublist s
  exact List.Nodup.sublist (List.Sublist.map _ hsub) hn

theorem handleDrop_invariant (dragIndex dropIndex : Nat) (s : List SelEntry)
    (hdrag : dragIndex < s.length) (hdrop : dropIndex < s.length)
    (h : SelInvariant s) : SelInvariant (handleDrop dragIndex dropIndex s) := by
  obtain ⟨ho, hn⟩ := h
  unfold handleDrop
  by_cases he : dragIndex = dropIndex
  · rw [if_pos he]
    exact ⟨ho, hn⟩
  · rw [if_neg he, List.get?_eq_get hdrag]
    refine ⟨renumber_ordersMatchPosition _, ?_⟩
    apply renumber_noDuplicateIds
    have hlen : dropIndex ≤ (s.eraseIdx dragIndex).length := by
      rw [List.length_eraseIdx, if_pos hdrag]
      omega
    have hperm : ((s.eraseIdx dragIndex).insertIdx dropIndex (s.get ⟨dragIndex, hdrag⟩)).Perm s :=
      (List.perm_insertIdx _ _ hlen).trans (get_cons_eraseIdx_perm s dragIndex hdrag)
    exact ((hperm.map _).nodup_iff).mpr hn

/-- C4: starting from the empty selection, after any sequence of
selection transitions (single- or multi-select click, click on empty
space, explicit remove, drag reorder, clear) the selection list
satisfies the invariant: the order field at position i is i + 1, and
no two entries share a parcel id. -/
theorem selection_invariant (s : List SelEntry) (h : SelReachable s) : SelInvariant s := by
  induction h with
  | empty => exact SelInvariant_nil
  | step hr hs ih =>
    cases hs with
    | clickParcel multi oid center s => exact handleClickParcel_invariant _ _ _ _ ih
    | clickEmpty s => exact SelInvariant_nil
    | removeParcel objectId s => exact handleRemoveParcel_invariant _ _ ih
    | dropReorder dragIndex dropIndex s hdrag hdrop =>
      exact handleDrop_invariant _ _ _ hdrag hdrop ih
    | clearAll s => exact SelInvariant_nil

/-- Concrete center point shared by the selection witnesses. -/
def originW : Pt := { lng := 0, lat := 0 }

theorem selection_invariant_witness :
    SelInvariant [{ OBJECTID := 5, center := originW, selectionOrder := 1 }] :=
  selection_invariant _
    (SelReachable.step SelReachable.empty (SelStep.clickParcel false 5 originW []))

/-- C5: with no duplicate ids, a multi-select click on a present
parcel removes it and renumbers densely from 1; on an absent parcel
it appends with order length + 1; hence clicking a present parcel
twice removes it and re-adds it at the end, with order equal to the
new length (one more than the length after removal). -/
theorem multi_click_toggle (s : List SelEntry) (oid : Nat) (center center2 : Pt)
    (hnd : noDuplicateIds s) :
    (oid ∈ s.map (fun p => p.OBJECTID) →
      handleClickParcel true oid center s =
        renumber (s.filter (fun p => p.OBJECTID != oid))) ∧
    (oid ∉ s.map (fun p => p.OBJECTID) →
      handleClickParcel true oid center s =
        s ++ [{ OBJECTID := oid, center := center, selectionOrder := s.length + 1 }]) ∧
    (oid ∈ s.map (fun p => p.OBJECTID) →
      handleClickParcel true oid center2 (handleClickParcel true oid center s) =
        renumber (s.filter (fun p => p.OBJECTID != oid)) ++
          [{ OBJECTID := oid, center := center2, selectionOrder := s.length }]) := by
  have hnd' : (s.map (fun p => p.OBJECTID)).Nodup := hnd
  have hpresent : oid ∈ s.map (fun p => p.OBJECTID) →
      handleClickParcel true oid center s =
        renumber (s.filter (fun p => p.OBJECTID != oid)) := by
    intro hm
    cases hfind : s.findIdx? (fun p => p.OBJECTID == oid) with
    | none =>
      obtain ⟨x, hx, hoid⟩ := List.mem_map.mp hm
      have := (findIdx?_none_iff (fun p => p.OBJECTID == oid) s 0).mp hfind x hx
      simp [hoid] at this
    | some i =>
      simp only [handleClickParcel, hfind, if_true, ite_true]
      have := eraseIdx_first_match_eq_filter oid s 0 i hfind hnd'
      rw [Nat.sub_zero] at this
      rw [this]
  have habsent : oid ∉ s.map (fun p => p.OBJECTID) →
      handleClickParcel true oid center s =
        s ++ [{ OBJECTID := oid, center := center, selectionOrder := s.length + 1 }] := by
    intro hm
    cases hfind : s.findIdx? (fun p => p.OBJECTID == oid) with
    | none => simp only [handleClickParcel, hfind, if_true, ite_true]
    | some i =>
      obtain ⟨x, hx, hpx⟩ := findIdx?_some_exists _ s 0 i hfind
      exact absurd (List.mem_map.mpr ⟨x, hx, by simpa using hpx⟩) hm
  refine ⟨hpresent, habsent, ?_⟩
  intro hm
  rw [hpresent hm]
  set s' := renumber (s.filter (fun p => p.OBJECTID != oid)) with hs'
  have hmap' : s'.map (fun p => p.OBJECTID) =
      (s.filter (fun p => p.OBJECTID != oid)).map (fun p => p.OBJECTID) :=
    renumberFrom_map_oid 0 _
  have hnotmem : oid ∉ s'.map (fun p => p.OBJECTID) := by
    rw [hmap']
    intro hmem
    obtain ⟨x, hx, hoid⟩ := List.mem_map.mp hmem
    have := (List.mem_filter.mp hx).2
    simp [hoid] at this
  cases hfind2 : s'.findIdx? (fun p => p.OBJECTID == oid) with
  | some i =>
    obtain ⟨x, hx, hpx⟩ := findIdx?_some_exists _ s' 0 i hfind2
    exact absurd (List.mem_map.mpr ⟨x, hx, by simpa using hpx⟩) hnotmem
  | none =>
    simp only [handleClickParcel, hfind2, if_true, ite_true]
    have hlen : s'.length = (s.filter (fun p => p.OBJECTID != oid)).length :=
      renumberFrom_length 0 _
    have hlen2 := filter_ne_length oid s hnd' hm
    have horder : s'.length + 1 = s.length := by omega
    rw [horder]

/-- Concrete selection entries for the C5 witness. -/
def selAW : SelEntry := { OBJECTID := 5, center := originW, selectionOrder := 1 }

/-- Second concrete selection entry for the C5 witness. -/
def selBW : SelEntry := { OBJECTID := 9, center := originW, selectionOrder := 2 }

theorem multi_click_toggle_witness :
    handleClickParcel true 5 originW [selAW, selBW] =
      renumber ([selAW, selBW].filter (fun p => p.OBJECTID != 5)) ∧
    handleClickParcel true 7 originW [selAW, selBW] =
      [selAW, selBW] ++ [{ OBJECTID := 7, center := originW, selectionOrder := 3 }] ∧
    handleClickParcel true 5 originW (handleClickParcel true 5 originW [selAW, selBW]) =
      renumber ([selAW, selBW].filter (fun p => p.OBJECTID != 5)) ++
        [{ OBJECTID := 5, center := originW, selectionOrder := 2 }] :=
  ⟨(multi_click_toggle [selAW, selBW] 5 originW originW
      (by unfold noDuplicateIds selAW selBW; decide)).1 (by unfold selAW selBW; decide),
   (multi_click_toggle [selAW, selBW] 7 originW originW
      (by unfold noDuplicateIds selAW selBW; decide)).2.1 (by unfold selAW selBW; decide),
   (multi_click_toggle [selAW, selBW] 5 originW originW
      (by unfold noDuplicateIds selAW selBW; decide)).2.2 (by unfold selAW selBW; decide)⟩

/-- C6: a single-select (multi = false) click on a parcel clears the
selection exactly when the list is the singleton holding that parcel;
in every other case the list is replaced by the single entry for the
clicked parcel at order 1. -/
theorem single_click_spec (s : List SelEntry) (oid : Nat) (center : Pt) :
    (handleClickParcel false oid center s = [] ↔
      s.map (fun p => p.OBJECTID) = [oid]) ∧
    (s.map (fun p => p.OBJECTID) ≠ [oid] →
      handleClickParcel false oid center s =
        [{ OBJECTID := oid, center := center, selectionOrder := 1 }]) := by
  cases hfind : s.findIdx? (fun p => p.OBJECTID == oid) with
  | none =>
    have hne : s.map (fun p => p.OBJECTID) ≠ [oid] := by
      intro hmap
      have hoid : oid ∈ s.map (fun p => p.OBJECTID) := by rw [hmap]; simp
      obtain ⟨x, hx, hxoid⟩ := List.mem_map.mp hoid
      have := (findIdx?_none_iff (fun p => p.OBJECTID == oid) s 0).mp hfind x hx
      simp [hxoid] at this
    simp only [handleClickParcel, hfind, if_false, Bool.false_eq_true, ite_false]
    exact ⟨by simp [hne], fun _ => by trivial⟩
  | some i =>
    by_cases hl : s.length = 1
    · obtain ⟨a, rfl⟩ : ∃ a, s = [a] := by
        cases s with
        | nil => simp at hl
        | cons a t =>
          cases t with
          | nil => exact ⟨a, rfl⟩
          | cons b u => simp at hl
      have hpa : (a.OBJECTID == oid) = true := by
        rw [List.findIdx?_cons] at hfind
        by_cases hp : (a.OBJECTID == oid) = true
        · exact hp
        · rw [if_neg hp] at hfind
          simp [List.findIdx?] at hfind
      have haoid : a.OBJECTID = oid := by simpa using hpa
      have hmap : [a].map (fun p => p.OBJECTID) = [oid] := by simp [haoid]
      simp only [handleClickParcel, hfind, if_false, Bool.false_eq_true, ite_false,
        List.length_singleton]
      exact ⟨by simp [hmap], fun hne => absurd hmap hne⟩
    · have hne : s.map (fun p => p.OBJECTID) ≠ [oid] := by
        intro hmap
        have := congrArg List.length hmap
        simp at this
        exact hl this
      have hlb : (s.length == 1) = false := by simpa using hl
      simp only [handleClickParcel, hfind, if_false, Bool.false_eq_true, ite_false, hlb]
      exact ⟨by simp [hne], fun _ => by trivial⟩

theorem single_click_spec_witness :
    handleClickParcel false 5 originW [selAW] = [] ∧
    handleClickParcel false 7 originW [selAW] =
      [{ OBJECTID := 7, center := originW, selectionOrder := 1 }] :=
  ⟨(single_click_spec [selAW] 5 originW).1.mpr (by unfold selAW; decide),
   (single_click_spec [selAW] 7 originW).2 (by unfold selAW; decide)⟩

theorem getProject_updateProject (store : List SavedProject) (id : String)
    (ids2 : List Nat) (now2 : Nat) (old : SavedProject)
    (hget : getProject store id = some old) :
    getProject (updateProject store id ids2 now2) id =
      some { old with parcelIds := ids2, updatedAt := now2 } := by
  induction store with
  | nil => simp [getProject, List.find?] at hget
  | cons a t ih =>
    by_cases ha : (fun proj => proj.id == id) a = true
    · have h1 : List.find? (fun proj => proj.id == id) (a :: t) = some a :=
        List.find?_cons_of_pos t ha
      rw [getProject] at hget
      rw [h1] at hget
      injection hget with hget
      subst hget
      have h2 : List.find? (fun proj => proj.id == id)
          ({ a with parcelIds := ids2, updatedAt := now2 } :: updateProject t id ids2 now2) =
          some { a with parcelIds := ids2, updatedAt := now2 } :=
        List.find?_cons_of_pos _ (by simpa using ha)
      show List.find? (fun proj => proj.id == id)
          ((if (a.id == id) = true then _ else _) :: updateProject t id ids2 now2) = _
      rw [if_pos ha]
      exact h2
    · have h1 : List.find? (fun proj => proj.id == id) (a :: t) =
          List.find? (fun proj => proj.id == id) t :=
        List.find?_cons_of_neg t ha
      rw [getProject] at hget
      rw [h1] at hget
      have h2 : List.find? (fun proj => proj.id == id)
          (a :: updateProject t id ids2 now2) =
          List.find? (fun proj => proj.id == id) (updateProject t id ids2 now2) :=
        List.find?_cons_of_neg _ ha
      show List.find? (fun proj => proj.id == id)
          ((if (a.id == id) = true then _ else _) :: updateProject t id ids2 now2) = _
      rw [if_neg ha]
      rw [h2]
      exact ih hget

/-- C7: save followed by get of the returned record's id yields a
record whose parcelIds equals the saved ids exactly (given that the
generated identifier is fresh, as a generated UUID is); and update of
an existing record followed by get yields a record with the new
parcelIds and an updatedAt equal to the update time, strictly later
than the previous updatedAt whenever the clock has advanced. -/
theorem save_update_get_roundtrip (projects : List SavedProject) (newId : String)
    (now : Nat) (name : String) (ids : List Nat)
    (hfresh : newId ∉ projects.map (fun proj => proj.id)) :
    (getProject (saveProject projects newId now name ids).2 newId =
        some (saveProject projects newId now name ids).1 ∧
      (saveProject projects newId now name ids).1.parcelIds = ids) ∧
    ∀ (store : List SavedProject) (id : String) (ids2 : List Nat) (now2 : Nat)
      (old : SavedProject),
      getProject store id = some old → old.updatedAt < now2 →
      ∃ r, getProject (updateProject store id ids2 now2) id = some r ∧
        r.parcelIds = ids2 ∧ old.updatedAt < r.updatedAt := by
  refine ⟨⟨?_, rfl⟩, ?_⟩
  · have hnone : projects.find? (fun proj => proj.id == newId) = none := by
      rw [List.find?_eq_none]
      intro x hx
      have hne : x.id ≠ newId := fun hc => hfresh (List.mem_map.mpr ⟨x, hx, hc⟩)
      simpa using hne
    show (projects ++ [(saveProject projects newId now name ids).1]).find?
        (fun proj => proj.id == newId) = some (saveProject projects newId now name ids).1
    rw [List.find?_append, hnone]
    simp [saveProject, List.find?]
  · intro store id ids2 now2 old hget hlt
    exact ⟨{ old with parcelIds := ids2, updatedAt := now2 },
      getProject_updateProject store id ids2 now2 old hget, rfl, hlt⟩

/-- Concrete save result for the C7 witness. -/
def saveResW : SavedProject × List SavedProject :=
  saveProject [] "id-1" 10 "Farm A" [3, 1, 2]

theorem save_update_get_roundtrip_witness :
    (getProject saveResW.2 "id-1" = some saveResW.1 ∧
      saveResW.1.parcelIds = [3, 1, 2]) ∧
    (∃ r, getProject (updateProject saveResW.2 "id-1" [7] 20) "id-1" = some r ∧
      r.parcelIds = [7] ∧ saveResW.1.updatedAt < r.updatedAt) := by
  have h := save_update_get_roundtrip [] "id-1" 10 "Farm A" [3, 1, 2] (by simp)
  exact ⟨h.1, h.2 saveResW.2 "id-1" [7] 20 saveResW.1 h.1.1 (by decide)⟩

/-- C8 counterexample: saving through the projects hook (the one the
map view uses) with a blank name and an empty collection produces the
default name "Project 1", not "Selection 1". -/
theorem save_blank_name_counterexample :
    (saveProject [] "id-1" 0 "" [1]).1.name = "Project 1" ∧
    (saveProject [] "id-1" 0 "" [1]).1.name ≠ "Selection 1" := by
  constructor <;> decide

/-- C8 (amended): saving with a blank (empty or whitespace-only) name
uses the default name built from the record count: "Project count+1"
in the projects hook and "Selection count+1" in the saved-selections
hook; saving with a non-blank name uses that name trimmed, in both. -/
theorem save_default_name_spec (projects : List SavedProject)
    (selections : List SavedSelection) (newId : String) (now : Nat)
    (name : String) (ids : List Nat) :
    (jsTrim name = "" →
      (saveProject projects newId now name ids).1.name =
          "Project " ++ Nat.repr (projects.length + 1) ∧
        (saveSelection selections newId now name ids).1.name =
          "Selection " ++ Nat.repr (selections.length + 1)) ∧
    (jsTrim name ≠ "" →
      (saveProject projects newId now name ids).1.name = jsTrim name ∧
        (saveSelection selections newId now name ids).1.name = jsTrim name) := by
  by_cases h : jsTrim name = ""
  · refine ⟨fun _ => ⟨?_, ?_⟩, fun hne => absurd h hne⟩ <;>
      simp [saveProject, saveSelection, h]
  · refine ⟨fun he => absurd he h, fun _ => ⟨?_, ?_⟩⟩ <;>
      simp [saveProject, saveSelection, h]

theorem save_default_name_spec_witness :
    (saveProject [] "id-1" 0 "   " [1]).1.name = "Project " ++ Nat.repr 1 ∧
    (saveSelection [] "id-2" 0 "   " [1]).1.name = "Selection " ++ Nat.repr 1 ∧
    (saveProject [] "id-3" 0 " Farm " [1]).1.name = jsTrim " Farm " :=
  ⟨((save_default_name_spec [] [] "id-1" 0 "   " [1]).1 (by decide)).1,
   ((save_default_name_spec [] [] "id-2" 0 "   " [1]).1 (by decide)).2,
   ((save_default_name_spec [] [] "id-3" 0 " Farm " [1]).2 (by decide)).1⟩

/-- C10: rename leaves every record with a different id unchanged;
for the matched record it preserves id, parcelIds and createdAt,
keeps the old name when the new name is blank, and still replaces
updatedAt with the current time. -/
theorem rename_frame_spec (projects : List SavedProject) (id newName : String)
    (now : Nat) (hpresent : id ∈ projects.map (fun proj => proj.id)) :
    (renameProject projects id newName now).length = projects.length ∧
    ∀ i (h1 : i < projects.length)
      (h2 : i < (renameProject projects id newName now).length),
      ((projects.get ⟨i, h1⟩).id ≠ id →
        (renameProject projects id newName now).get ⟨i, h2⟩ = projects.get ⟨i, h1⟩) ∧
      ((projects.get ⟨i, h1⟩).id = id →
        ((renameProject projects id newName now).get ⟨i, h2⟩).id =
            (projects.get ⟨i, h1⟩).id ∧
          ((renameProject projects id newName now).get ⟨i, h2⟩).parcelIds =
            (projects.get ⟨i, h1⟩).parcelIds ∧
          ((renameProject projects id newName now).get ⟨i, h2⟩).createdAt =
            (projects.get ⟨i, h1⟩).createdAt ∧
          (jsTrim newName = "" →
            ((renameProject projects id newName now).get ⟨i, h2⟩).name =
              (projects.get ⟨i, h1⟩).name) ∧
          ((renameProject projects id newName now).get ⟨i, h2⟩).updatedAt = now) := by
  refine ⟨List.length_map _ _, ?_⟩
  intro i h1 h2
  have hg : (renameProject projects id newName now).get ⟨i, h2⟩ =
      if (projects.get ⟨i, h1⟩).id == id then
        { projects.get ⟨i, h1⟩ with
            name := if jsTrim newName = "" then (projects.get ⟨i, h1⟩).name
                    else jsTrim newName,
            updatedAt := now }
      else projects.get ⟨i, h1⟩ := by
    simp [renameProject, List.get_eq_getElem, List.getElem_map]
  rw [hg]
  by_cases hid : (projects.get ⟨i, h1⟩).id = id
  · rw [if_pos (by simpa using hid)]
    refine ⟨fun hne => absurd hid hne, fun _ => ⟨rfl, rfl, rfl, ?_, rfl⟩⟩
    intro hblank
    simp [hblank]
  · rw [if_neg (by simpa using hid)]
    exact ⟨fun _ => rfl, fun heq => absurd heq hid⟩

/-- Concrete matched record for the C10 witness. -/
def projRecW : SavedProject :=
  { id := "p1", name := "Old", parcelIds := [1, 2], createdAt := 5, updatedAt := 5 }

/-- Concrete unmatched record for the C10 witness. -/
def projRec2W : SavedProject :=
  { id := "p2", name := "Other", parcelIds := [3], createdAt := 6, updatedAt := 6 }

theorem rename_frame_spec_witness :
    (renameProject [projRecW, projRec2W] "p1" "  " 9).length = 2 ∧
    (renameProject [projRecW, projRec2W] "p1" "  " 9).get ⟨1, by decide⟩ = projRec2W ∧
    ((renameProject [projRecW, projRec2W] "p1" "  " 9).get ⟨0, by decide⟩).name = "Old" ∧
    ((renameProject [projRecW, projRec2W] "p1" "  " 9).get ⟨0, by decide⟩).updatedAt = 9 := by
  have h := rename_frame_spec [projRecW, projRec2W] "p1" "  " 9 (by decide)
  refine ⟨h.1, ?_, ?_, ?_⟩
  · exact (h.2 1 (by decide) (by decide)).1 (by decide)
  · exact ((h.2 0 (by decide) (by decide)).2 (by decide)).2.2.2.1 (by decide)
  · exact ((h.2 0 (by decide) (by decide)).2 (by decide)).2.2.2.2

end LandMapping
